import Mathlib

/-!
Shallow embedding of the PersAI explorer turn-stream reduction engine
(frontend plugin sources: `api.ts`, `PersaiExplorer.tsx`, `types.ts`).

JavaScript values that may be `undefined` are embedded as `Option`;
`Math.floor(Date.now() / 1000)` becomes an explicit `now : Nat` argument
threaded to every function that samples the clock in the source.
-/

namespace PersAI

/-- Structure `ToolCall` from `types.ts`: correlation/display payload of a tool message.
`result : string | null` (and the `undefined` produced by
`toolResponse?.content` in `addToolResponse`) is embedded as `Option String`. -/
structure ToolCall where
  role : String
  result : Option String
  callId : String
  toolName : String
  args : List (String × String)
deriving Repr, DecidableEq

/-- Structure `ChatMessage` from `types.ts`. `content` is typed `string` in the source
but `addToolResponse` assigns `toolResponse?.content as string`, which is
`undefined` at runtime when no response is present, so it is embedded as
`Option String`. -/
structure ChatMessage where
  role : String
  content : Option String
  createdAt : Nat
  toolCall : Option ToolCall
deriving Repr, DecidableEq

/-- The fields of `llama-stack-client`'s `ToolCall` that the reducer reads. -/
structure LlamaToolCall where
  call_id : String
  tool_name : String
  arguments : List (String × String)
deriving Repr, DecidableEq

/-- The field of `llama-stack-client`'s `ToolResponse` that the reducer reads. -/
structure LlamaToolResponse where
  content : String
deriving Repr, DecidableEq

/-- The `delta` payload of a `step_progress` chunk: only the `text` variant is
inspected by the reducer; all other variants are collapsed into `other`. -/
inductive Delta where
  | text (text : String)
  | other
deriving Repr, DecidableEq

/-- The `step_details` payload of a `step_complete` chunk: only
`tool_execution` is inspected. A missing `tool_responses` array behaves like
the empty list under `tool_responses?.[index]`, so it is embedded as `List`. -/
inductive StepDetails where
  | tool_execution (tool_calls : List LlamaToolCall)
      (tool_responses : List LlamaToolResponse)
  | other
deriving Repr, DecidableEq

/-- The final `output_message` carried by a `turn_complete` chunk. -/
structure OutputMessage where
  content : String
deriving Repr, DecidableEq

/-- The `turn` object of a `turn_complete` chunk, with its optional
`output_message`. -/
structure Turn where
  output_message : Option OutputMessage
deriving Repr, DecidableEq

/-- The discriminated `payload.event_type` union consumed by
`updateMessagesFromChunk`; `other` stands for any unrecognized or malformed
event type, which the source routes to the `default` branch. -/
inductive Payload where
  | turn_start
  | step_start
  | step_progress (delta : Delta)
  | step_complete (step_details : StepDetails)
  | turn_complete (turn : Turn)
  | turn_awaiting_input
  | other
deriving Repr, DecidableEq

/-- Wrapper `chunk.event`. -/
structure Event where
  payload : Payload
deriving Repr, DecidableEq

/-- Shape of `AgentTurnResponseStreamChunk` as consumed: `{ event: { payload } }`. -/
structure StreamChunk where
  event : Event
deriving Repr, DecidableEq

/-- JavaScript string coercion of a possibly-`undefined` string, as performed
by `current + delta` in `updateChunk` when `current` is `undefined`. -/
def jsToString : Option String → String
  | some s => s
  | none => "undefined"

/-- JavaScript truthiness of a possibly-`undefined` string: `undefined` and
the empty string are falsy, as tested by `if (delta)` in `updateChunk`. -/
def jsTruthy : Option String → Bool
  | some s => s ≠ ""
  | none => false

/-- The inner `updateMessage` closure of `updateChunk`:
`if (delta) return current + delta; return full!;`. When `delta` is falsy the
source returns `full!`, which is `undefined` when `full` was not supplied. -/
def updateMessage (delta full current : Option String) : Option String :=
  if jsTruthy delta then some (jsToString current ++ jsToString delta)
  else full

/-- Function `updateChunk` from `PersaiExplorer.tsx`: merge a text delta or a full
replacement into the trailing agent message, or append a fresh agent
message stamped with the current time. -/
def updateChunk (now : Nat) (prevMessages : List ChatMessage)
    (delta full : Option String) : List ChatMessage :=
  match prevMessages.getLast? with
  | some lastMessage =>
    if lastMessage.role = "agent" then
      prevMessages.set (prevMessages.length - 1)
        { lastMessage with content := updateMessage delta full lastMessage.content }
    else
      prevMessages ++ [{ role := "agent"
                       , content := updateMessage delta full (some "")
                       , createdAt := now
                       , toolCall := none }]
  | none =>
      prevMessages ++ [{ role := "agent"
                       , content := updateMessage delta full (some "")
                       , createdAt := now
                       , toolCall := none }]

/-- The fresh tool message constructed at the top of `addToolResponse`. -/
def toolMessageFor (now : Nat) (toolCall : LlamaToolCall)
    (toolResponse : Option LlamaToolResponse) : ChatMessage :=
  { role := "tool"
  , content := toolResponse.map LlamaToolResponse.content
  , createdAt := now
  , toolCall := some
      { role := "tool"
      , callId := toolCall.call_id
      , toolName := toolCall.tool_name
      , args := toolCall.arguments
      , result := toolResponse.map LlamaToolResponse.content } }

/-- The predicate `(msg) => msg.toolCall?.callId === toolCallId` used by the
`findIndex` call in `addToolResponse`. -/
def matchesCallId (callId : String) (msg : ChatMessage) : Bool :=
  match msg.toolCall with
  | some tc => tc.callId = callId
  | none => false

/-- Function `addToolResponse` from `PersaiExplorer.tsx`: upsert the single tool
message correlated to `toolCall.call_id`. -/
def addToolResponse (now : Nat) (prevMessages : List ChatMessage)
    (toolCall : LlamaToolCall) (toolResponse : Option LlamaToolResponse) :
    List ChatMessage :=
  let toolMessage := toolMessageFor now toolCall toolResponse
  match prevMessages.findIdx? (matchesCallId toolCall.call_id) with
  | some i => prevMessages.set i toolMessage
  | none => prevMessages ++ [toolMessage]

/-- Function `addUserRequest` from `PersaiExplorer.tsx`. -/
def addUserRequest (now : Nat) (prevMessages : List ChatMessage)
    (message : String) : List ChatMessage :=
  prevMessages ++ [{ role := "user"
                   , content := some message
                   , createdAt := now
                   , toolCall := none }]

/-- The `tool_calls.reduce((prev, toolCall, index) => ...)` loop of the
`step_complete` branch, with JavaScript's implicit array index made an
explicit argument. -/
def foldToolCalls (now : Nat) (responses : List LlamaToolResponse) :
    List LlamaToolCall → Nat → List ChatMessage → List ChatMessage
  | [], _, acc => acc
  | c :: cs, i, acc =>
      foldToolCalls now responses cs (i + 1)
        (addToolResponse now acc c (responses.get? i))

/-- Function `updateMessagesFromChunk` from `PersaiExplorer.tsx`: the turn-stream
reducer, dispatching on `payload.event_type`. -/
def updateMessagesFromChunk (now : Nat) (prevMessages : List ChatMessage)
    (chunk : StreamChunk) : List ChatMessage :=
  match chunk.event.payload with
  | .turn_start => prevMessages
  | .step_start => prevMessages
  | .step_progress delta =>
    match delta with
    | .text t => updateChunk now prevMessages (some t) none
    | .other => prevMessages
  | .step_complete details =>
    match details with
    | .tool_execution calls responses => foldToolCalls now responses calls 0 prevMessages
    | .other => prevMessages
  | .turn_complete turn =>
    match turn.output_message with
    | some om => updateChunk now prevMessages none (some om.content)
    | none => prevMessages
  | .turn_awaiting_input => prevMessages
  | .other => prevMessages

/-! Driver (`handleSubmit` and the component state it manipulates).
The React state cells (`sessionId`, `messages`, `isStreaming`, `error`) are
gathered in `DriverState`; the asynchronous collaborators (session creation,
turn creation, the chunk stream) are supplied as an outcome script in
`SubmitEnv`, each stream chunk paired with the clock reading at which the
reducer consumes it. -/

/-- The React state cells of `PersaiExplorer` that `handleSubmit` reads and
writes. -/
structure DriverState where
  sessionId : Option String
  messages : List ChatMessage
  isStreaming : Bool
  error : Option String
deriving Repr, DecidableEq

/-- Outcome of iterating the open turn stream: either every chunk is
delivered and the stream ends normally, or it raises an error (whose
`message` text is carried) after delivering a leading run of chunks. -/
inductive StreamOutcome where
  | ok (chunks : List (Nat × StreamChunk))
  | failed (chunks : List (Nat × StreamChunk)) (msg : String)
deriving Repr, DecidableEq

/-- The external collaborators of one `handleSubmit` invocation:
configuration lookups, the session-creation result, the turn-creation
result, and the time at which the user message is appended. -/
structure SubmitEnv where
  persaiUrl : Option String
  datasourcePath : Option String
  sessionCreate : Except String String
  turnCreate : Except String StreamOutcome
  userTime : Nat
deriving Repr

/-- Result of one `handleSubmit` invocation: the final component state plus
how many session-creation and turn-creation calls were made. -/
structure SubmitResult where
  state : DriverState
  sessionCreateCalls : Nat
  turnCreateCalls : Nat
deriving Repr, DecidableEq

/-- The `for await (const chunk of response)` loop: apply the reducer to each
delivered chunk in arrival order, each at its own clock reading. -/
def applyChunks (messages : List ChatMessage)
    (chunks : List (Nat × StreamChunk)) : List ChatMessage :=
  chunks.foldl (fun acc tc => updateMessagesFromChunk tc.1 acc tc.2) messages

/-- The error text set when the `persai_url` global variable is missing. -/
def urlMissingError : String :=
  "Could not determine PersAI backend url (\x27persai_url\x27 global variable is missing). Was the plugin installed properly?"

/-- The error text set when the datasource path cannot be determined. -/
def datasourcePathError : String :=
  "Could not determine the datasource path"

/-- The part of `handleSubmit` from the `turnCreate` call onward, entered
with the session already resolved: consume the stream, or catch the raised
error, set the error text and clear the streaming flag. -/
def streamTurn (env : SubmitEnv) (st : DriverState) (sc : Nat) : SubmitResult :=
  match env.turnCreate with
  | .error e => ⟨{ st with error := some e, isStreaming := false }, sc, 1⟩
  | .ok (.ok chunks) =>
      ⟨{ st with messages := applyChunks st.messages chunks
               , isStreaming := false }, sc, 1⟩
  | .ok (.failed chunks msg) =>
      ⟨{ st with messages := applyChunks st.messages chunks
               , error := some msg
               , isStreaming := false }, sc, 1⟩

/-- Function `handleSubmit` from `PersaiExplorer.tsx`: validate configuration, append
the user message, lazily create the session, then stream the turn; any
failure is caught at this boundary, surfaced as a single error message, and
clears the streaming flag. -/
def handleSubmit (env : SubmitEnv) (st : DriverState) (queryText : String) :
    SubmitResult :=
  match env.persaiUrl with
  | none => ⟨{ st with error := some urlMissingError }, 0, 0⟩
  | some _ =>
    match env.datasourcePath with
    | none => ⟨{ st with error := some datasourcePathError }, 0, 0⟩
    | some _ =>
      let st1 : DriverState :=
        { st with error := none
                , messages := addUserRequest env.userTime st.messages queryText
                , isStreaming := true }
      match st.sessionId with
      | some _ => streamTurn env st1 0
      | none =>
        match env.sessionCreate with
        | .error e => ⟨{ st1 with error := some e, isStreaming := false }, 1, 0⟩
        | .ok sid => streamTurn env { st1 with sessionId := some sid } 1

/-- A `step_progress` chunk carrying a text delta. -/
def textChunk (t : String) : StreamChunk :=
  ⟨⟨.step_progress (.text t)⟩⟩

/-- A `step_complete` chunk carrying a tool-execution step. -/
def toolExecChunk (calls : List LlamaToolCall)
    (responses : List LlamaToolResponse) : StreamChunk :=
  ⟨⟨.step_complete (.tool_execution calls responses)⟩⟩

/-- A `turn_complete` chunk carrying a final output message. -/
def turnCompleteChunk (s : String) : StreamChunk :=
  ⟨⟨.turn_complete ⟨some ⟨s⟩⟩⟩⟩

/-- When the list ends in an agent message, `updateChunk` replaces that last
message in place, keeping everything else (including its `createdAt`). -/
theorem updateChunk_last_agent (now : Nat) (M : List ChatMessage)
    (d f : Option String) (m : ChatMessage)
    (h1 : M.getLast? = some m) (h2 : m.role = "agent") :
    updateChunk now M d f
      = M.set (M.length - 1) { m with content := updateMessage d f m.content } := by
  unfold updateChunk
  rw [h1]
  simp [h2]

/-- When the list is empty or does not end in an agent message, `updateChunk`
appends a fresh agent message stamped with the current time. -/
theorem updateChunk_not_agent (now : Nat) (M : List ChatMessage)
    (d f : Option String)
    (h : ∀ m, M.getLast? = some m → m.role ≠ "agent") :
    updateChunk now M d f
      = M ++ [{ role := "agent", content := updateMessage d f (some "")
              , createdAt := now, toolCall := none }] := by
  unfold updateChunk
  cases hL : M.getLast? with
  | none => rfl
  | some m => simp [h m hL]

/-- The indexed tool-call loop is the left fold over the calls enumerated
from its starting index. -/
theorem foldToolCalls_eq_foldl_enumFrom (now : Nat)
    (responses : List LlamaToolResponse) (calls : List LlamaToolCall)
    (i : Nat) (acc : List ChatMessage) :
    foldToolCalls now responses calls i acc
      = (calls.enumFrom i).foldl
          (fun acc ic => addToolResponse now acc ic.2 (responses.get? ic.1)) acc := by
  induction calls generalizing i acc with
  | nil => rfl
  | cons c cs ih =>
      simp only [foldToolCalls, List.enumFrom, List.foldl]
      exact ih (i + 1) _

/-- The call identifiers carried by the messages of a store, in order. -/
def callIds (M : List ChatMessage) : List String :=
  M.filterMap (fun m => m.toolCall.map ToolCall.callId)

/-- Predicate `matchesCallId` holds exactly when the message carries a tool-call payload
with the given call identifier. -/
theorem matchesCallId_iff {id : String} {m : ChatMessage} :
    matchesCallId id m = true ↔ ∃ tc, m.toolCall = some tc ∧ tc.callId = id := by
  cases h : m.toolCall with
  | none => simp [matchesCallId, h]
  | some tc => simp [matchesCallId, h]

/-- Membership in `callIds` is witnessed by a message matching the id. -/
theorem mem_callIds {id : String} {M : List ChatMessage} :
    id ∈ callIds M ↔ ∃ m ∈ M, matchesCallId id m = true := by
  simp only [callIds, List.mem_filterMap, Option.map_eq_some', matchesCallId_iff]

/-- Replacing a message by one carrying the same call identifier (or both
carrying none) leaves `callIds` unchanged. -/
theorem callIds_set (M : List ChatMessage) (i : Nat) (x m : ChatMessage)
    (hm : M[i]? = some m)
    (h : m.toolCall.map ToolCall.callId = x.toolCall.map ToolCall.callId) :
    callIds (M.set i x) = callIds M := by
  induction M generalizing i with
  | nil => simp at hm
  | cons a as ih =>
    cases i with
    | zero =>
      simp only [List.getElem?_cons_zero, Option.some.injEq] at hm
      subst hm
      simp only [List.set_cons_zero, callIds, List.filterMap_cons]
      rw [← h]
    | succ n =>
      simp only [List.getElem?_cons_succ] at hm
      simp only [List.set_cons_succ, callIds, List.filterMap_cons]
      have := ih n hm
      simp only [callIds] at this
      rw [this]

/-- Computation of `callIds` over an appended singleton. -/
theorem callIds_append (M : List ChatMessage) (x : ChatMessage) :
    callIds (M ++ [x]) = callIds M ++ (x.toolCall.map ToolCall.callId).toList := by
  simp only [callIds, List.filterMap_append]
  cases h : x.toolCall <;> simp [h]

/-- When `findIndex` locates a message with the call's id, `addToolResponse`
replaces it in place at that index. -/
theorem addToolResponse_of_found (now : Nat) (M : List ChatMessage)
    (c : LlamaToolCall) (r : Option LlamaToolResponse) (i : Nat)
    (h : M.findIdx? (matchesCallId c.call_id) = some i) :
    addToolResponse now M c r = M.set i (toolMessageFor now c r) := by
  simp only [addToolResponse, h]

/-- When no message carries the call's id, `addToolResponse` appends. -/
theorem addToolResponse_of_not_found (now : Nat) (M : List ChatMessage)
    (c : LlamaToolCall) (r : Option LlamaToolResponse)
    (h : M.findIdx? (matchesCallId c.call_id) = none) :
    addToolResponse now M c r = M ++ [toolMessageFor now c r] := by
  simp only [addToolResponse, h]

/-- An upsert either rewrites `callIds` to itself (replacement of an
existing id) or appends exactly one fresh id. -/
theorem callIds_addToolResponse (now : Nat) (M : List ChatMessage)
    (c : LlamaToolCall) (r : Option LlamaToolResponse) :
    callIds (addToolResponse now M c r) = callIds M ∨
    (callIds (addToolResponse now M c r) = callIds M ++ [c.call_id] ∧
      c.call_id ∉ callIds M) := by
  cases h : M.findIdx? (matchesCallId c.call_id) with
  | none =>
    right
    rw [addToolResponse_of_not_found now M c r h]
    rw [List.findIdx?_eq_none_iff] at h
    refine ⟨by rw [callIds_append]; simp [toolMessageFor], ?_⟩
    rw [mem_callIds]
    rintro ⟨m, hm, hmatch⟩
    rw [h m hm] at hmatch
    cases hmatch
  | some i =>
    left
    rw [addToolResponse_of_found now M c r i h]
    rw [List.findIdx?_eq_some_iff_getElem] at h
    obtain ⟨hi, hp, -⟩ := h
    obtain ⟨tc, htc, hid⟩ := matchesCallId_iff.1 hp
    refine callIds_set M i _ (M[i]) (List.getElem?_eq_getElem hi) ?_
    rw [htc]
    simp [toolMessageFor, hid]

/-- Uniqueness of call identifiers is preserved by one upsert. -/
theorem nodup_callIds_addToolResponse (now : Nat) (M : List ChatMessage)
    (c : LlamaToolCall) (r : Option LlamaToolResponse)
    (h : (callIds M).Nodup) :
    (callIds (addToolResponse now M c r)).Nodup := by
  rcases callIds_addToolResponse now M c r with heq | ⟨heq, hmem⟩
  · rw [heq]; exact h
  · rw [heq]
    refine h.append (List.nodup_singleton _) ?_
    intro a ha hb
    simp only [List.mem_singleton] at hb
    subst hb
    exact hmem ha

/-- Uniqueness of call identifiers is preserved by the tool-call loop. -/
theorem nodup_callIds_foldToolCalls (now : Nat)
    (responses : List LlamaToolResponse) (calls : List LlamaToolCall)
    (i : Nat) (acc : List ChatMessage) (h : (callIds acc).Nodup) :
    (callIds (foldToolCalls now responses calls i acc)).Nodup := by
  induction calls generalizing i acc with
  | nil => exact h
  | cons c cs ih =>
      exact ih (i + 1) _ (nodup_callIds_addToolResponse now acc c _ h)

/-- Applying `updateChunk` never changes the stored call identifiers. -/
theorem callIds_updateChunk (now : Nat) (M : List ChatMessage)
    (d f : Option String) :
    callIds (updateChunk now M d f) = callIds M := by
  cases hL : M.getLast? with
  | none =>
    rw [updateChunk_not_agent now M d f (fun m hm => by rw [hL] at hm; cases hm),
      callIds_append]
    simp
  | some m =>
    by_cases hr : m.role = "agent"
    · rw [updateChunk_last_agent now M d f m hL hr]
      refine callIds_set M _ _ m ?_ rfl
      rw [← List.getLast?_eq_getElem?]
      exact hL
    · rw [updateChunk_not_agent now M d f
        (fun m' hm' => by rw [hL] at hm'; cases hm'; exact hr), callIds_append]
      simp

/-- Uniqueness of call identifiers is preserved by every reduce step. -/
theorem nodup_callIds_updateMessagesFromChunk (now : Nat)
    (M : List ChatMessage) (chunk : StreamChunk)
    (h : (callIds M).Nodup) :
    (callIds (updateMessagesFromChunk now M chunk)).Nodup := by
  obtain ⟨⟨p⟩⟩ := chunk
  cases p with
  | turn_start => exact h
  | step_start => exact h
  | step_progress delta =>
    cases delta with
    | text t =>
      show (callIds (updateChunk now M (some t) none)).Nodup
      rw [callIds_updateChunk]; exact h
    | other => exact h
  | step_complete details =>
    cases details with
    | tool_execution calls responses =>
      exact nodup_callIds_foldToolCalls now responses calls 0 M h
    | other => exact h
  | turn_complete turn =>
    obtain ⟨om⟩ := turn
    cases om with
    | none => exact h
    | some o =>
      show (callIds (updateChunk now M none (some o.content))).Nodup
      rw [callIds_updateChunk]; exact h
  | turn_awaiting_input => exact h
  | other => exact h

end PersAI

namespace PersAI

/-- A sample agent message with content `"A"`. -/
def exAgentA : ChatMessage :=
  { role := "agent", content := some "A", createdAt := 0, toolCall := none }

/-- C1 counterexample: the claim fails at the empty text delta. With
`M = [exAgentA]` and a `step_progress` text delta whose text is `""`, the
claim demands the last agent message be replaced by a copy whose content is
the old content concatenated with `""` (that is, still `"A"`); the code's
`if (delta)` truthiness test treats the empty string as absent and falls
through to `return full!`, setting the content to the undefined value. -/
theorem C1_counterexample :
    updateMessagesFromChunk 1 [exAgentA] (textChunk "")
      ≠ [{ exAgentA with content := some ("A" ++ "") }] := by
  decide

/-- C1 (amended to non-empty deltas): for every non-empty text delta `d`, a
`step_progress` text chunk replaces a trailing agent message by a copy whose
content is the old content concatenated with `d`, and otherwise appends a
fresh agent message whose content is exactly `d`; a `step_progress` chunk
whose delta is not a text delta leaves the messages unchanged. -/
theorem C1_text_delta (now : Nat) (M : List ChatMessage) (d : String)
    (hd : d ≠ "") :
    (∀ m s, M.getLast? = some m → m.role = "agent" → m.content = some s →
      updateMessagesFromChunk now M (textChunk d)
        = M.set (M.length - 1) { m with content := some (s ++ d) }) ∧
    ((∀ m, M.getLast? = some m → m.role ≠ "agent") →
      updateMessagesFromChunk now M (textChunk d)
        = M ++ [{ role := "agent", content := some d, createdAt := now
                , toolCall := none }]) ∧
    updateMessagesFromChunk now M ⟨⟨.step_progress .other⟩⟩ = M := by
  refine ⟨fun m s h1 h2 h3 => ?_, fun h => ?_, rfl⟩
  · show updateChunk now M (some d) none = _
    rw [updateChunk_last_agent now M (some d) none m h1 h2, h3]
    simp [updateMessage, jsTruthy, jsToString, hd]
  · show updateChunk now M (some d) none = _
    rw [updateChunk_not_agent now M (some d) none h]
    simp [updateMessage, jsTruthy, jsToString, hd]

/-- C1 witness: the amended theorem applied at `now = 1`, `M = [exAgentA]`,
`d = "B"`. -/
theorem C1_witness :
    updateMessagesFromChunk 1 [exAgentA] (textChunk "B")
      = [{ exAgentA with content := some "AB" }] := by
  have h := (C1_text_delta 1 [exAgentA] "B" (by decide)).1 exAgentA "A" rfl rfl rfl
  simpa using h

/-- C2: `addToolResponse` replaces in place, at the same index, the first
existing message whose `toolCall.callId` equals the call's identifier
(fully superseding it with the freshly constructed tool message, whose
`createdAt` is the current time), and appends a new tool message when no
such message exists; consequently uniqueness of call identifiers (at most
one tool message per distinct `callId`) is preserved by every reduce
step. -/
theorem C2_tool_upsert (now : Nat) (M : List ChatMessage) (c : LlamaToolCall)
    (r : Option LlamaToolResponse) :
    (∀ i (hi : i < M.length),
        matchesCallId c.call_id (M.get ⟨i, hi⟩) = true →
        (∀ j (hj : j < i), matchesCallId c.call_id (M.get ⟨j, Nat.lt_trans hj hi⟩) = false) →
        addToolResponse now M c r = M.set i (toolMessageFor now c r)) ∧
    ((∀ m ∈ M, matchesCallId c.call_id m = false) →
        addToolResponse now M c r = M ++ [toolMessageFor now c r]) ∧
    (∀ chunk : StreamChunk, (callIds M).Nodup →
        (callIds (updateMessagesFromChunk now M chunk)).Nodup) := by
  refine ⟨fun i hi hp hfirst => ?_, fun h => ?_,
    fun chunk h => nodup_callIds_updateMessagesFromChunk now M chunk h⟩
  · apply addToolResponse_of_found
    rw [List.findIdx?_eq_some_iff_getElem]
    refine ⟨hi, hp, fun j hj => ?_⟩
    simpa using hfirst j hj
  · apply addToolResponse_of_not_found
    rw [List.findIdx?_eq_none_iff]
    exact h

/-- C2 witness: the upsert theorem applied to a store holding one tool
message for call id `c1`; a second upsert for `c1` replaces it at index 0
with the freshly constructed message. -/
theorem C2_witness :
    addToolResponse 5
        [{ role := "tool", content := some "r0", createdAt := 1
         , toolCall := some ⟨"tool", some "r0", "c1", "q", []⟩ }]
        ⟨"c1", "q", []⟩ (some ⟨"r1"⟩)
      = [toolMessageFor 5 ⟨"c1", "q", []⟩ (some ⟨"r1"⟩)] := by
  have h := (C2_tool_upsert 5
      [{ role := "tool", content := some "r0", createdAt := 1
       , toolCall := some ⟨"tool", some "r0", "c1", "q", []⟩ }]
      ⟨"c1", "q", []⟩ (some ⟨"r1"⟩)).1 0 (by decide) (by decide)
      (fun j hj => absurd hj (Nat.not_lt_zero j))
  simpa using h

/-- C10: upserting a call with no tool response replaces the first message
carrying that call id with one whose `result` and `content` are unset: a
previously recorded tool result is discarded, and a later `step_complete`
chunk repeating the call with an empty `tool_responses` sequence erases a
result already shown. -/
theorem C10_result_discarded (now : Nat) (M : List ChatMessage)
    (c : LlamaToolCall) (i : Nat)
    (h : M.findIdx? (matchesCallId c.call_id) = some i) :
    addToolResponse now M c none
      = M.set i { role := "tool", content := none, createdAt := now
                , toolCall := some { role := "tool", result := none
                                   , callId := c.call_id
                                   , toolName := c.tool_name
                                   , args := c.arguments } } ∧
    updateMessagesFromChunk now M (toolExecChunk [c] [])
      = M.set i { role := "tool", content := none, createdAt := now
                , toolCall := some { role := "tool", result := none
                                   , callId := c.call_id
                                   , toolName := c.tool_name
                                   , args := c.arguments } } := by
  have h1 := addToolResponse_of_found now M c none i h
  have h2 : updateMessagesFromChunk now M (toolExecChunk [c] [])
      = addToolResponse now M c none := rfl
  exact ⟨h1, by rw [h2, h1]; rfl⟩

/-- C10 witness: a stored result `"r0"` for call `c1` is erased by a later
`step_complete` repeating the call with no responses. -/
theorem C10_witness :
    updateMessagesFromChunk 7
        [{ role := "tool", content := some "r0", createdAt := 1
         , toolCall := some ⟨"tool", some "r0", "c1", "q", []⟩ }]
        (toolExecChunk [⟨"c1", "q", []⟩] [])
      = [{ role := "tool", content := none, createdAt := 7
         , toolCall := some ⟨"tool", none, "c1", "q", []⟩ }] := by
  have h := (C10_result_discarded 7
      [{ role := "tool", content := some "r0", createdAt := 1
       , toolCall := some ⟨"tool", some "r0", "c1", "q", []⟩ }]
      ⟨"c1", "q", []⟩ 0 (by decide)).2
  simpa using h

/-- C3: a `turn_complete` chunk carrying an output message with full text `s`
follows the append-to-last-agent-or-create-new rule with full replacement
semantics: a trailing agent message's content becomes exactly `s`, otherwise
a fresh agent message with content exactly `s` is appended; a
`turn_complete` chunk with no output message leaves the messages
unchanged. -/
theorem C3_turn_complete (now : Nat) (M : List ChatMessage) (s : String) :
    (∀ m, M.getLast? = some m → m.role = "agent" →
      updateMessagesFromChunk now M (turnCompleteChunk s)
        = M.set (M.length - 1) { m with content := some s }) ∧
    ((∀ m, M.getLast? = some m → m.role ≠ "agent") →
      updateMessagesFromChunk now M (turnCompleteChunk s)
        = M ++ [{ role := "agent", content := some s, createdAt := now
                , toolCall := none }]) ∧
    updateMessagesFromChunk now M ⟨⟨.turn_complete ⟨none⟩⟩⟩ = M := by
  refine ⟨fun m h1 h2 => ?_, fun h => ?_, rfl⟩
  · show updateChunk now M none (some s) = _
    rw [updateChunk_last_agent now M none (some s) m h1 h2]
    simp [updateMessage, jsTruthy]
  · show updateChunk now M none (some s) = _
    rw [updateChunk_not_agent now M none (some s) h]
    simp [updateMessage, jsTruthy]

/-- C3 witness: accumulated content `"Hello world"` is replaced by exactly
`"Goodbye"` (not `"Hello worldGoodbye"`). -/
theorem C3_witness :
    updateMessagesFromChunk 2
        [{ role := "agent", content := some "Hello world", createdAt := 1
         , toolCall := none }]
        (turnCompleteChunk "Goodbye")
      = [{ role := "agent", content := some "Goodbye", createdAt := 1
         , toolCall := none }] := by
  have h := (C3_turn_complete 2
      [{ role := "agent", content := some "Hello world", createdAt := 1
       , toolCall := none }] "Goodbye").1
      { role := "agent", content := some "Hello world", createdAt := 1
      , toolCall := none } rfl rfl
  simpa using h

/-- C4: a `step_complete` tool-execution chunk is reduced to the sequential
left fold of the tool-call upsert over the position-enumerated calls,
starting from the incoming message list, with the response at index `i`
looked up by position (absent when `tool_responses` is shorter). -/
theorem C4_tool_fold (now : Nat) (M : List ChatMessage)
    (calls : List LlamaToolCall) (responses : List LlamaToolResponse) :
    updateMessagesFromChunk now M (toolExecChunk calls responses)
      = calls.enum.foldl
          (fun acc ic => addToolResponse now acc ic.2 (responses.get? ic.1)) M := by
  show foldToolCalls now responses calls 0 M = _
  rw [foldToolCalls_eq_foldl_enumFrom]
  rfl

/-- The invariant of claim C5: `createdAt` is non-decreasing along the
store. -/
def createdAtMonotone (M : List ChatMessage) : Prop :=
  List.Pairwise (fun a b => a.createdAt ≤ b.createdAt) M

/-- The call identifiers named by a chunk's tool calls (empty for every
chunk that is not a tool-execution `step_complete`). -/
def chunkToolCallIds (chunk : StreamChunk) : List String :=
  match chunk.event.payload with
  | .step_complete (.tool_execution calls _) => calls.map LlamaToolCall.call_id
  | _ => []

/-- Overwriting a position with the element it already holds is the
identity. -/
theorem set_of_getElem?_self {α : Type _} (l : List α) (i : Nat) (a : α)
    (h : l[i]? = some a) : l.set i a = l := by
  induction l generalizing i with
  | nil => rfl
  | cons x xs ih =>
    cases i with
    | zero => simp_all
    | succ n =>
      simp only [List.getElem?_cons_succ] at h
      simp [List.set_cons_succ, ih n h]

/-- Monotonicity of `createdAt`, phrased over the list of timestamps. -/
theorem createdAtMonotone_iff_map (l : List ChatMessage) :
    createdAtMonotone l ↔ List.Pairwise (· ≤ ·) (l.map ChatMessage.createdAt) :=
  List.pairwise_map.symm

/-- Appending a message stamped no earlier than everything present keeps
`createdAt` monotone. -/
theorem createdAtMonotone_append (M : List ChatMessage) (x : ChatMessage)
    (hmono : createdAtMonotone M)
    (hle : ∀ m ∈ M, m.createdAt ≤ x.createdAt) :
    createdAtMonotone (M ++ [x]) := by
  rw [createdAtMonotone, List.pairwise_append]
  refine ⟨hmono, List.pairwise_singleton _ _, fun a ha b hb => ?_⟩
  simp only [List.mem_singleton] at hb
  subst hb
  exact hle a ha

/-- Applying `updateChunk` keeps `createdAt` monotone and bounded by the current
time: it either rewrites the last message keeping its timestamp, or appends
a message stamped with the current time. -/
theorem updateChunk_mono (now : Nat) (M : List ChatMessage)
    (d f : Option String) (hmono : createdAtMonotone M)
    (hle : ∀ m ∈ M, m.createdAt ≤ now) :
    createdAtMonotone (updateChunk now M d f) ∧
    ∀ m ∈ updateChunk now M d f, m.createdAt ≤ now := by
  cases hL : M.getLast? with
  | none =>
    rw [updateChunk_not_agent now M d f (fun m hm => by rw [hL] at hm; cases hm)]
    refine ⟨createdAtMonotone_append M _ hmono (fun m hm => hle m hm), ?_⟩
    intro m hm
    rcases List.mem_append.1 hm with hm | hm
    · exact hle m hm
    · simp only [List.mem_singleton] at hm; subst hm; exact Nat.le_refl now
  | some lastM =>
    by_cases hr : lastM.role = "agent"
    · rw [updateChunk_last_agent now M d f lastM hL hr]
      have hpos : M[M.length - 1]? = some lastM := by
        rw [← List.getLast?_eq_getElem?]; exact hL
      constructor
      · have hmap : (M.set (M.length - 1)
            { lastM with content := updateMessage d f lastM.content }).map
              ChatMessage.createdAt = M.map ChatMessage.createdAt := by
          rw [List.map_set]
          apply set_of_getElem?_self
          rw [List.getElem?_map, hpos]
          rfl
        rw [createdAtMonotone_iff_map, hmap]
        exact (createdAtMonotone_iff_map M).1 hmono
      · intro m hm
        rcases List.mem_or_eq_of_mem_set hm with hm | hm
        · exact hle m hm
        · subst hm
          exact hle lastM (List.mem_of_getLast?_eq_some hL)
    · rw [updateChunk_not_agent now M d f
        (fun m' hm' => by rw [hL] at hm'; cases hm'; exact hr)]
      refine ⟨createdAtMonotone_append M _ hmono (fun m hm => hle m hm), ?_⟩
      intro m hm
      rcases List.mem_append.1 hm with hm | hm
      · exact hle m hm
      · simp only [List.mem_singleton] at hm; subst hm; exact Nat.le_refl now

/-- An upsert whose call identifier is not yet stored appends, keeping
`createdAt` monotone and bounded, and extends `callIds` by that
identifier. -/
theorem addToolResponse_fresh_mono (now : Nat) (M : List ChatMessage)
    (c : LlamaToolCall) (r : Option LlamaToolResponse)
    (hmono : createdAtMonotone M) (hle : ∀ m ∈ M, m.createdAt ≤ now)
    (hfresh : c.call_id ∉ callIds M) :
    createdAtMonotone (addToolResponse now M c r) ∧
    (∀ m ∈ addToolResponse now M c r, m.createdAt ≤ now) ∧
    callIds (addToolResponse now M c r) = callIds M ++ [c.call_id] := by
  have hnone : M.findIdx? (matchesCallId c.call_id) = none := by
    rw [List.findIdx?_eq_none_iff]
    intro m hm
    by_contra hmt
    exact hfresh (mem_callIds.2 ⟨m, hm, by simpa using hmt⟩)
  rw [addToolResponse_of_not_found now M c r hnone]
  refine ⟨createdAtMonotone_append M _ hmono (fun m hm => hle m hm), ?_, ?_⟩
  · intro m hm
    rcases List.mem_append.1 hm with hm | hm
    · exact hle m hm
    · simp only [List.mem_singleton] at hm; subst hm; exact Nat.le_refl now
  · rw [callIds_append]; simp [toolMessageFor]

/-- The tool-call loop keeps `createdAt` monotone and bounded provided the
chunk's call identifiers are pairwise distinct and none is already
stored. -/
theorem foldToolCalls_mono (now : Nat) (responses : List LlamaToolResponse)
    (calls : List LlamaToolCall) :
    ∀ (i : Nat) (acc : List ChatMessage),
      createdAtMonotone acc → (∀ m ∈ acc, m.createdAt ≤ now) →
      (∀ id ∈ calls.map LlamaToolCall.call_id, id ∉ callIds acc) →
      (calls.map LlamaToolCall.call_id).Nodup →
      createdAtMonotone (foldToolCalls now responses calls i acc) ∧
      ∀ m ∈ foldToolCalls now responses calls i acc, m.createdAt ≤ now := by
  induction calls with
  | nil => exact fun i acc hmono hle _ _ => ⟨hmono, hle⟩
  | cons c cs ih =>
    intro i acc hmono hle hfresh hnodup
    simp only [List.map_cons, List.nodup_cons] at hnodup
    obtain ⟨hfc, hms⟩ := addToolResponse_fresh_mono now acc c (responses.get? i)
      hmono hle (hfresh c.call_id (by simp))
    show createdAtMonotone (foldToolCalls now responses cs (i + 1)
        (addToolResponse now acc c (responses.get? i))) ∧ _
    refine ih (i + 1) _ hfc hms.1 ?_ hnodup.2
    intro id hid
    rw [hms.2, List.mem_append]
    rintro (hacc | hone)
    · exact hfresh id (by simp [hid]) hacc
    · simp only [List.mem_singleton] at hone
      subst hone
      exact hnodup.1 hid

/-- C5 counterexample: a store reachable from the empty store by three
reduce steps at strictly increasing clock readings violates `createdAt`
monotonicity: a `step_complete` repeating call `c1` after an agent message
was appended replaces the index-0 tool message with a fresh, later
timestamp, placing `createdAt = 3` before `createdAt = 2`. -/
theorem C5_counterexample :
    ¬ createdAtMonotone
        (updateMessagesFromChunk 3
          (updateMessagesFromChunk 2
            (updateMessagesFromChunk 1 [] (toolExecChunk [⟨"c1", "q", []⟩] []))
            (textChunk "x"))
          (toolExecChunk [⟨"c1", "q", []⟩] [⟨"r"⟩])) := by
  rw [createdAtMonotone]
  decide

/-- C5 (amended): a reduce step keeps `createdAt` monotone non-decreasing
whenever the current time is at least every stored timestamp and the step
performs no in-place tool replacement — that is, the chunk's tool-call
identifiers are pairwise distinct and none is already stored. (A
`step_complete` that repeats an already-stored `callId` may violate
monotonicity, as the counterexample shows.) -/
theorem C5_monotone (now : Nat) (M : List ChatMessage) (chunk : StreamChunk)
    (hmono : createdAtMonotone M)
    (hle : ∀ m ∈ M, m.createdAt ≤ now)
    (hfresh : ∀ id ∈ chunkToolCallIds chunk, id ∉ callIds M)
    (hnodup : (chunkToolCallIds chunk).Nodup) :
    createdAtMonotone (updateMessagesFromChunk now M chunk) ∧
    ∀ m ∈ updateMessagesFromChunk now M chunk, m.createdAt ≤ now := by
  obtain ⟨⟨p⟩⟩ := chunk
  cases p with
  | turn_start => exact ⟨hmono, hle⟩
  | step_start => exact ⟨hmono, hle⟩
  | step_progress delta =>
    cases delta with
    | text t => exact updateChunk_mono now M (some t) none hmono hle
    | other => exact ⟨hmono, hle⟩
  | step_complete details =>
    cases details with
    | tool_execution calls responses =>
      exact foldToolCalls_mono now responses calls 0 M hmono hle hfresh hnodup
    | other => exact ⟨hmono, hle⟩
  | turn_complete turn =>
    obtain ⟨om⟩ := turn
    cases om with
    | none => exact ⟨hmono, hle⟩
    | some o => exact updateChunk_mono now M none (some o.content) hmono hle
  | turn_awaiting_input => exact ⟨hmono, hle⟩
  | other => exact ⟨hmono, hle⟩

/-- C5 witness: the amended theorem applied to a store `[user at 1]` and a
fresh tool-execution chunk at time `2`. -/
theorem C5_witness :
    createdAtMonotone
      (updateMessagesFromChunk 2
        [{ role := "user", content := some "hi", createdAt := 1, toolCall := none }]
        (toolExecChunk [⟨"c1", "q", []⟩] [])) := by
  refine (C5_monotone 2
      [{ role := "user", content := some "hi", createdAt := 1, toolCall := none }]
      (toolExecChunk [⟨"c1", "q", []⟩] []) ?_ ?_ ?_ ?_).1
  · rw [createdAtMonotone]; decide
  · intro m hm
    simp only [List.mem_singleton] at hm
    subst hm
    decide
  · intro id hid
    simp only [chunkToolCallIds, toolExecChunk, List.map_cons, List.map_nil,
      List.mem_singleton] at hid
    subst hid
    decide
  · decide

/-- Forget a message's creation timestamp (the one field of the reducer's
output that depends on the sampled clock). -/
def eraseCreatedAt (m : ChatMessage) : ChatMessage :=
  { m with createdAt := 0 }

/-- Searching by call id only inspects the tool-call payload, so it agrees
on lists equal up to creation timestamps. -/
theorem findIdx?_congr_eraseCreatedAt (id : String) :
    ∀ (l₁ l₂ : List ChatMessage),
      l₁.map eraseCreatedAt = l₂.map eraseCreatedAt →
      ∀ i, l₁.findIdx? (matchesCallId id) i = l₂.findIdx? (matchesCallId id) i := by
  intro l₁
  induction l₁ with
  | nil =>
    intro l₂ h i
    cases l₂ with
    | nil => rfl
    | cons b bs => simp at h
  | cons a as ih =>
    intro l₂ h i
    cases l₂ with
    | nil => simp at h
    | cons b bs =>
      simp only [List.map_cons, List.cons.injEq] at h
      have htc : a.toolCall = b.toolCall := by
        have := congrArg ChatMessage.toolCall h.1
        exact this
      have hab : matchesCallId id a = matchesCallId id b := by
        unfold matchesCallId
        rw [htc]
      rw [List.findIdx?_cons, List.findIdx?_cons, hab, ih bs h.2]

/-- Outputs of `updateChunk` agree up to creation timestamps whenever its list
inputs do, for any two clock readings. -/
theorem updateChunk_congr (t₁ t₂ : Nat) (l₁ l₂ : List ChatMessage)
    (d f : Option String)
    (h : l₁.map eraseCreatedAt = l₂.map eraseCreatedAt) :
    (updateChunk t₁ l₁ d f).map eraseCreatedAt
      = (updateChunk t₂ l₂ d f).map eraseCreatedAt := by
  have hlen : l₁.length = l₂.length := by
    have := congrArg List.length h
    simpa using this
  have hlast : l₁.getLast?.map eraseCreatedAt = l₂.getLast?.map eraseCreatedAt := by
    rw [← List.getLast?_map, ← List.getLast?_map, h]
  cases h₁ : l₁.getLast? with
  | none =>
    have h₂ : l₂.getLast? = none := by
      rw [List.getLast?_eq_none_iff] at h₁ ⊢
      subst h₁
      simpa using h.symm
    rw [updateChunk_not_agent t₁ l₁ d f (fun m hm => by rw [h₁] at hm; cases hm),
        updateChunk_not_agent t₂ l₂ d f (fun m hm => by rw [h₂] at hm; cases hm)]
    simp only [List.map_append, h]
    rfl
  | some m₁ =>
    cases h₂ : l₂.getLast? with
    | none =>
      rw [h₁, h₂] at hlast
      simp at hlast
    | some m₂ =>
      rw [h₁, h₂] at hlast
      simp only [Option.map_some'] at hlast
      have hem : eraseCreatedAt m₁ = eraseCreatedAt m₂ := Option.some.inj hlast
      have hrole : m₁.role = m₂.role := by
        have := congrArg ChatMessage.role hem
        exact this
      have hcontent : m₁.content = m₂.content := by
        have := congrArg ChatMessage.content hem
        exact this
      have htc : m₁.toolCall = m₂.toolCall := by
        have := congrArg ChatMessage.toolCall hem
        exact this
      by_cases hr : m₁.role = "agent"
      · rw [updateChunk_last_agent t₁ l₁ d f m₁ h₁ hr,
            updateChunk_last_agent t₂ l₂ d f m₂ h₂ (by rw [← hrole]; exact hr)]
        rw [List.map_set, List.map_set, h, hlen]
        congr 1
        unfold eraseCreatedAt
        simp only
        rw [hrole, hcontent, htc]
      · rw [updateChunk_not_agent t₁ l₁ d f
            (fun m hm => by rw [h₁] at hm; cases hm; exact hr),
          updateChunk_not_agent t₂ l₂ d f
            (fun m hm => by rw [h₂] at hm; cases hm; rw [← hrole]; exact hr)]
        simp only [List.map_append, h]
        rfl

/-- Outputs of `addToolResponse` agree up to creation timestamps whenever its
list inputs do, for any two clock readings. -/
theorem addToolResponse_congr (t₁ t₂ : Nat) (l₁ l₂ : List ChatMessage)
    (c : LlamaToolCall) (r : Option LlamaToolResponse)
    (h : l₁.map eraseCreatedAt = l₂.map eraseCreatedAt) :
    (addToolResponse t₁ l₁ c r).map eraseCreatedAt
      = (addToolResponse t₂ l₂ c r).map eraseCreatedAt := by
  have hidx : l₁.findIdx? (matchesCallId c.call_id)
      = l₂.findIdx? (matchesCallId c.call_id) :=
    findIdx?_congr_eraseCreatedAt c.call_id l₁ l₂ h 0
  have herase : eraseCreatedAt (toolMessageFor t₁ c r)
      = eraseCreatedAt (toolMessageFor t₂ c r) := rfl
  cases hf : l₂.findIdx? (matchesCallId c.call_id) with
  | none =>
    rw [addToolResponse_of_not_found t₁ l₁ c r (hidx.trans hf),
        addToolResponse_of_not_found t₂ l₂ c r hf]
    simp only [List.map_append, h, List.map_cons, List.map_nil, herase]
  | some i =>
    rw [addToolResponse_of_found t₁ l₁ c r i (hidx.trans hf),
        addToolResponse_of_found t₂ l₂ c r i hf]
    rw [List.map_set, List.map_set, h, herase]

/-- The tool-call loop outputs agree up to creation timestamps whenever its
accumulators do, for any two clock readings. -/
theorem foldToolCalls_congr (t₁ t₂ : Nat)
    (responses : List LlamaToolResponse) :
    ∀ (calls : List LlamaToolCall) (i : Nat) (l₁ l₂ : List ChatMessage),
      l₁.map eraseCreatedAt = l₂.map eraseCreatedAt →
      (foldToolCalls t₁ responses calls i l₁).map eraseCreatedAt
        = (foldToolCalls t₂ responses calls i l₂).map eraseCreatedAt := by
  intro calls
  induction calls with
  | nil => exact fun i l₁ l₂ h => h
  | cons c cs ih =>
    intro i l₁ l₂ h
    exact ih (i + 1) _ _ (addToolResponse_congr t₁ t₂ l₁ l₂ c (responses.get? i) h)

/-- C6 counterexample: the reducer's output is not a function of the message
list and chunk alone — the code also samples the wall clock
(`Date.now()`), so two evaluations of `reduce(M, c)` at different clock
readings yield different `createdAt` values on the freshly created agent
message. -/
theorem C6_counterexample :
    updateMessagesFromChunk 1 [] (textChunk "A")
      ≠ updateMessagesFromChunk 2 [] (textChunk "A") := by
  decide

/-- C6 (amended): the reducer is deterministic given its inputs and the
sampled clock reading; for a fixed message list and chunk, any two
evaluations yield the same messages in the same order with the same role,
content and tool-call payload, differing at most in the `createdAt` values
of freshly created messages. -/
theorem C6_deterministic (t₁ t₂ : Nat) (M : List ChatMessage)
    (chunk : StreamChunk) :
    (updateMessagesFromChunk t₁ M chunk).map eraseCreatedAt
      = (updateMessagesFromChunk t₂ M chunk).map eraseCreatedAt := by
  obtain ⟨⟨p⟩⟩ := chunk
  cases p with
  | turn_start => rfl
  | step_start => rfl
  | step_progress delta =>
    cases delta with
    | text t => exact updateChunk_congr t₁ t₂ M M (some t) none rfl
    | other => rfl
  | step_complete details =>
    cases details with
    | tool_execution calls responses =>
      exact foldToolCalls_congr t₁ t₂ responses calls 0 M M rfl
    | other => rfl
  | turn_complete turn =>
    obtain ⟨om⟩ := turn
    cases om with
    | none => rfl
    | some o => exact updateChunk_congr t₁ t₂ M M none (some o.content) rfl
  | turn_awaiting_input => rfl
  | other => rfl

/-- C7: chunks carrying no actionable state — `turn_start`, `step_start`,
`turn_awaiting_input`, and any unrecognized or malformed event type — reduce
to the unchanged message list (and, the reducer being a total function,
never raise). -/
theorem C7_noop_chunks (now : Nat) (M : List ChatMessage) :
    updateMessagesFromChunk now M ⟨⟨.turn_start⟩⟩ = M ∧
    updateMessagesFromChunk now M ⟨⟨.step_start⟩⟩ = M ∧
    updateMessagesFromChunk now M ⟨⟨.turn_awaiting_input⟩⟩ = M ∧
    updateMessagesFromChunk now M ⟨⟨.other⟩⟩ = M :=
  ⟨rfl, rfl, rfl, rfl⟩

/-- Consuming the turn stream never changes the stored session identifier. -/
theorem streamTurn_sessionId (env : SubmitEnv) (st : DriverState) (sc : Nat) :
    (streamTurn env st sc).state.sessionId = st.sessionId := by
  unfold streamTurn
  cases env.turnCreate with
  | error e => rfl
  | ok outc => cases outc <;> rfl

/-- Consuming the turn stream reports exactly one turn-creation call. -/
theorem streamTurn_turnCalls (env : SubmitEnv) (st : DriverState) (sc : Nat) :
    (streamTurn env st sc).turnCreateCalls = 1 := by
  unfold streamTurn
  cases env.turnCreate with
  | error e => rfl
  | ok outc => cases outc <;> rfl

/-- Consuming the turn stream passes the session-creation count through unchanged. -/
theorem streamTurn_sessionCalls (env : SubmitEnv) (st : DriverState) (sc : Nat) :
    (streamTurn env st sc).sessionCreateCalls = sc := by
  unfold streamTurn
  cases env.turnCreate with
  | error e => rfl
  | ok outc => cases outc <;> rfl

/-- C8: when the open turn stream raises after delivering a leading run of
chunks, the driver retains every message already folded into the store —
including the user message appended before session creation was attempted —
rolls nothing back, clears the streaming indicator, and stores exactly the
thrown failure's message text as the user-visible error. -/
theorem C8_stream_error (st : DriverState) (q url ds msg : String)
    (sc : Except String String) (chunks : List (Nat × StreamChunk)) (t : Nat)
    (hready : (∃ s, st.sessionId = some s) ∨ (∃ s, sc = Except.ok s)) :
    (handleSubmit ⟨some url, some ds, sc, Except.ok (.failed chunks msg), t⟩
        st q).state.messages
      = applyChunks (addUserRequest t st.messages q) chunks ∧
    (handleSubmit ⟨some url, some ds, sc, Except.ok (.failed chunks msg), t⟩
        st q).state.isStreaming = false ∧
    (handleSubmit ⟨some url, some ds, sc, Except.ok (.failed chunks msg), t⟩
        st q).state.error = some msg := by
  cases hsid : st.sessionId with
  | some s => simp [handleSubmit, hsid, streamTurn]
  | none =>
    rcases hready with ⟨s, hs⟩ | ⟨s, hs⟩
    · rw [hsid] at hs; cases hs
    · subst hs
      simp [handleSubmit, hsid, streamTurn]

/-- C8 witness: a stream error after one text delta leaves the user message
and that delta's agent message in the store, clears the streaming flag, and
surfaces the failure's message text. -/
theorem C8_witness :
    (handleSubmit ⟨some "u", some "d", Except.ok "s1",
        Except.ok (.failed [(1, textChunk "A")] "Stream interrupted"), 0⟩
      ⟨none, [], false, none⟩ "hi").state.messages
      = [{ role := "user", content := some "hi", createdAt := 0, toolCall := none },
         { role := "agent", content := some "A", createdAt := 1, toolCall := none }] ∧
    (handleSubmit ⟨some "u", some "d", Except.ok "s1",
        Except.ok (.failed [(1, textChunk "A")] "Stream interrupted"), 0⟩
      ⟨none, [], false, none⟩ "hi").state.isStreaming = false ∧
    (handleSubmit ⟨some "u", some "d", Except.ok "s1",
        Except.ok (.failed [(1, textChunk "A")] "Stream interrupted"), 0⟩
      ⟨none, [], false, none⟩ "hi").state.error = some "Stream interrupted" := by
  have h := C8_stream_error ⟨none, [], false, none⟩ "hi" "u" "d"
      "Stream interrupted" (Except.ok "s1") [(1, textChunk "A")] 0
      (Or.inr ⟨"s1", rfl⟩)
  refine ⟨?_, h.2.1, h.2.2⟩
  rw [h.1]
  decide

/-- C9: session creation happens at most once per conversation instance —
starting with no session, two sequential submissions make exactly one
session-creation call and two turn-creation calls, the identifier obtained
by the first submission is stored, and any submission starting with a
stored identifier (in particular a retry after a failure, which never
clears it) makes no session-creation call and goes straight to one
turn-creation call whenever configuration resolves. -/
theorem C9_session_once (url ds sid q₁ q₂ : String) (o₁ o₂ : StreamOutcome)
    (t₁ t₂ : Nat) (st : DriverState) (h0 : st.sessionId = none) :
    (handleSubmit ⟨some url, some ds, Except.ok sid, Except.ok o₁, t₁⟩
        st q₁).sessionCreateCalls
      + (handleSubmit ⟨some url, some ds, Except.ok sid, Except.ok o₂, t₂⟩
          (handleSubmit ⟨some url, some ds, Except.ok sid, Except.ok o₁, t₁⟩
            st q₁).state q₂).sessionCreateCalls = 1 ∧
    (handleSubmit ⟨some url, some ds, Except.ok sid, Except.ok o₁, t₁⟩
        st q₁).turnCreateCalls
      + (handleSubmit ⟨some url, some ds, Except.ok sid, Except.ok o₂, t₂⟩
          (handleSubmit ⟨some url, some ds, Except.ok sid, Except.ok o₁, t₁⟩
            st q₁).state q₂).turnCreateCalls = 2 ∧
    (handleSubmit ⟨some url, some ds, Except.ok sid, Except.ok o₁, t₁⟩
        st q₁).state.sessionId = some sid ∧
    (∀ (env : SubmitEnv) (st' : DriverState) (q s : String),
        st'.sessionId = some s →
        (handleSubmit env st' q).state.sessionId = some s ∧
        (handleSubmit env st' q).sessionCreateCalls = 0 ∧
        (env.persaiUrl ≠ none → env.datasourcePath ≠ none →
          (handleSubmit env st' q).turnCreateCalls = 1)) := by
  have hkeep : ∀ (env : SubmitEnv) (st' : DriverState) (q s : String),
      st'.sessionId = some s →
      (handleSubmit env st' q).state.sessionId = some s ∧
      (handleSubmit env st' q).sessionCreateCalls = 0 ∧
      (env.persaiUrl ≠ none → env.datasourcePath ≠ none →
        (handleSubmit env st' q).turnCreateCalls = 1) := by
    intro env st' q s hs
    obtain ⟨pu, dp, sc, tc, ut⟩ := env
    cases pu with
    | none =>
      exact ⟨by simp [handleSubmit, hs], by simp [handleSubmit],
        fun hpu _ => absurd rfl hpu⟩
    | some u =>
      cases dp with
      | none =>
        exact ⟨by simp [handleSubmit, hs], by simp [handleSubmit],
          fun _ hdp => absurd rfl hdp⟩
      | some d =>
        have hred : handleSubmit ⟨some u, some d, sc, tc, ut⟩ st' q
            = streamTurn ⟨some u, some d, sc, tc, ut⟩
                { st' with error := none
                         , messages := addUserRequest ut st'.messages q
                         , isStreaming := true } 0 := by
          simp [handleSubmit, hs]
        rw [hred]
        exact ⟨by rw [streamTurn_sessionId]; exact hs,
          streamTurn_sessionCalls _ _ _,
          fun _ _ => streamTurn_turnCalls _ _ _⟩
  have hred1 : handleSubmit ⟨some url, some ds, Except.ok sid, Except.ok o₁, t₁⟩
      st q₁
      = streamTurn ⟨some url, some ds, Except.ok sid, Except.ok o₁, t₁⟩
          { st with error := none
                  , messages := addUserRequest t₁ st.messages q₁
                  , isStreaming := true
                  , sessionId := some sid } 1 := by
    simp [handleSubmit, h0]
  have hsid1 : (handleSubmit ⟨some url, some ds, Except.ok sid, Except.ok o₁, t₁⟩
      st q₁).state.sessionId = some sid := by
    rw [hred1, streamTurn_sessionId]
  have h2 := hkeep ⟨some url, some ds, Except.ok sid, Except.ok o₂, t₂⟩
      (handleSubmit ⟨some url, some ds, Except.ok sid, Except.ok o₁, t₁⟩
        st q₁).state q₂ sid hsid1
  refine ⟨?_, ?_, hsid1, hkeep⟩
  · rw [h2.2.1, hred1, streamTurn_sessionCalls]
  · rw [h2.2.2 (by simp) (by simp), hred1, streamTurn_turnCalls]

/-- C9 witness: two sequential successful submissions on a fresh
conversation make exactly one session-creation call and two turn-creation
calls. -/
theorem C9_witness :
    (handleSubmit ⟨some "u", some "d", Except.ok "s1", Except.ok (.ok []), 0⟩
        ⟨none, [], false, none⟩ "a").sessionCreateCalls
      + (handleSubmit ⟨some "u", some "d", Except.ok "s1", Except.ok (.ok []), 1⟩
          (handleSubmit ⟨some "u", some "d", Except.ok "s1", Except.ok (.ok []), 0⟩
            ⟨none, [], false, none⟩ "a").state "b").sessionCreateCalls = 1 ∧
    (handleSubmit ⟨some "u", some "d", Except.ok "s1", Except.ok (.ok []), 0⟩
        ⟨none, [], false, none⟩ "a").turnCreateCalls
      + (handleSubmit ⟨some "u", some "d", Except.ok "s1", Except.ok (.ok []), 1⟩
          (handleSubmit ⟨some "u", some "d", Except.ok "s1", Except.ok (.ok []), 0⟩
            ⟨none, [], false, none⟩ "a").state "b").turnCreateCalls = 2 := by
  have h := C9_session_once "u" "d" "s1" "a" "b" (.ok []) (.ok []) 0 1
      ⟨none, [], false, none⟩ rfl
  exact ⟨h.1, h.2.1⟩

end PersAI
